import Mathlib

/-!
Verification of the Folder-Sweeper relocation engine (`cleaner.py`,
class `FolderProcessor`).  The engine is embedded shallowly:

* paths are strings joined with `"/"` (the separator choice is immaterial
  to every property below);
* the filesystem is a finite list of existing entries, each a path paired
  with its last-modified date; `os.listdir` results and spreadsheet
  contents are supplied by the environment as explicit data;
* Python exceptions are modelled with `Except` / explicit error flags,
  scoped exactly as the `try/except` blocks of the source;
* Python float arithmetic in the progress computation
  (`progress_step = 100 / total_files`, `int((i + 1) * progress_step)`)
  is idealized as exact arithmetic; the bridge lemma
  `progressEmit_eq_floor` states the resulting integer-division form
  equals the floor of the exact rational value.
-/

namespace Cleaner

/-- Embeds `os.path.join(a, b)` with `"/"` as the separator. -/
def pjoin (a b : String) : String := a ++ "/" ++ b

/-- Characters before the first `'/'`. -/
def takeUntilSlash : List Char → List Char
  | [] => []
  | c :: cs => if c == '/' then [] else c :: takeUntilSlash cs

/-- Embeds `os.path.basename`: the part of the path after the last separator. -/
def basename (p : String) : String := ⟨(takeUntilSlash p.data.reverse).reverse⟩

/-- Character-list test: `needle` occurs at the start of the second list. -/
def startsWithSeq : List Char → List Char → Bool
  | [], _ => true
  | _ :: _, [] => false
  | a :: as, b :: bs => a == b && startsWithSeq as bs

/-- Character-list test: `needle` occurs contiguously somewhere in the second list. -/
def hasSubSeq : List Char → List Char → Bool
  | n, [] => n.isEmpty
  | n, b :: t => startsWithSeq n (b :: t) || hasSubSeq n t

/-- Embeds the Python membership test `value in folder_name` (line 72):
contiguous substring containment on the character sequences. -/
def pyIn (needle hay : String) : Bool := hasSubSeq needle.data hay.data

/-- Character-list test: `needle` occurs at the end of the first list. -/
def endsWithSeq (hay needle : List Char) : Bool :=
  startsWithSeq needle.reverse hay.reverse

/-- Embeds Python `s.endswith(suf)` for a single literal suffix. -/
def pyEndsWith (s suf : String) : Bool := endsWithSeq s.data suf.data

/-- Embeds `file_name.endswith(('.xls', '.xlsx'))` (lines 56 and 61). -/
def isReportFile (name : String) : Bool :=
  pyEndsWith name ".xls" || pyEndsWith name ".xlsx"

/-- A cell of the first spreadsheet column as seen through pandas:
either missing (`NaN`, dropped by `dropna()`) or a value, recorded by its
Python `str()` image (the engine only ever uses the `astype(str)` form). -/
inductive Cell where
  | na : Cell
  | str (s : String) : Cell
deriving DecidableEq

/-- True for the cells that `dropna()` removes. -/
def Cell.isNA : Cell → Bool
  | .na => true
  | .str _ => false

/-- Embeds `astype(str)` on one cell. -/
def cellToStr : Cell → String
  | .na => "nan"
  | .str s => s

/-- Embeds `.dropna()` on the first column. -/
def dropna (l : List Cell) : List Cell := l.filter (fun c => !c.isNA)

/-- Embeds `.astype(str).tolist()`. -/
def astypeStr (l : List Cell) : List String := l.map cellToStr

/-- Embeds `pd.read_excel(file_path, usecols=[0])` applied to the raw cells
of the sheet's first column: the default `header=0` consumes the first row
as the column header, so only the remaining rows are data. -/
def readCol0 (rows : List Cell) : List Cell := rows.drop 1

/-- Embeds line 67:
`df.iloc[:, 0].dropna().astype(str).tolist()` applied after `read_excel`. -/
def extractTokens (rows : List Cell) : List String :=
  astypeStr (dropna (readCol0 rows))

/-- A calendar date, standing for `datetime.fromtimestamp(os.path.getmtime(p))`.
The epoch-seconds-to-date conversion is left to the environment: the
filesystem model stores each entry's last-modified date directly. -/
structure PyDate where
  year : Nat
  month : Nat
  day : Nat
deriving DecidableEq

/-- Full English month name, as produced by `strftime("%B")`. -/
def monthName : Nat → String
  | 1 => "January"
  | 2 => "February"
  | 3 => "March"
  | 4 => "April"
  | 5 => "May"
  | 6 => "June"
  | 7 => "July"
  | 8 => "August"
  | 9 => "September"
  | 10 => "October"
  | 11 => "November"
  | 12 => "December"
  | _ => ""

/-- Zero-padded two-digit field, as produced by `strftime("%m")`. -/
def zeroPad2 (n : Nat) : String :=
  if n < 10 then "0" ++ Nat.repr n else Nat.repr n

/-- Embeds `modified_date.strftime("%m %B %Y")` (line 75). -/
def fmtDate (d : PyDate) : String :=
  zeroPad2 d.month ++ " " ++ monthName d.month ++ " " ++ Nat.repr d.year

/-- Filesystem model: the finite list of existing entries, each an absolute
path paired with its last-modified date. -/
abbrev FS := List (String × PyDate)

/-- Embeds `os.path.exists(p)`. -/
def fsExists (fs : FS) (p : String) : Bool := fs.any (fun e => e.1 == p)

/-- Embeds `os.path.getmtime(p)` (as a date), `none` when the path is gone
and the call raises `FileNotFoundError`. -/
def fsMtime (fs : FS) (p : String) : Option PyDate :=
  (fs.find? (fun e => e.1 == p)).map (fun e => e.2)

/-- Removes a path from the filesystem (the source side of `shutil.move`). -/
def fsRemove (fs : FS) (p : String) : FS := fs.filter (fun e => e.1 != p)

/-- The disambiguated name built by the f-string of line 40: the base name
followed by a space and the decimal counter in parentheses. -/
def suffixName (base : String) (n : Nat) : String :=
  base ++ " (" ++ Nat.repr n ++ ")"

/-- Embeds the `while os.path.exists(new_folder_path)` loop of lines 37-41.
The loop state is the pending counter and the current candidate path; the
fuel argument only bounds the unrolling and `resolveTarget` supplies enough
of it for the loop to reach a free path (`resolveTarget_not_exists`). -/
def resolveLoop (fs : FS) (dest base : String) : Nat → Nat → String → String
  | 0, _, cur => cur
  | fuel + 1, counter, cur =>
    if fsExists fs cur then
      resolveLoop fs dest base fuel (counter + 1) (pjoin dest (suffixName base counter))
    else cur

/-- The collision-resolved target of `move_folder`: start from
`destination/basename(source)` with `counter = 1`. -/
def resolveTarget (fs : FS) (dest base : String) : String :=
  resolveLoop fs dest base (fs.length + 1) 1 (pjoin dest base)

/-- Embeds `os.makedirs(destination_folder)` guarded by
`if not os.path.exists(destination_folder)` (lines 31-32). -/
def mkdirs (fs : FS) (dest : String) (now : PyDate) : FS :=
  if fsExists fs dest then fs else (dest, now) :: fs

/-- Embeds `FolderProcessor.move_folder` (lines 28-44): ensure the
destination directory exists, resolve a collision-free target, then
`shutil.move` the source there (the entry keeps its date).  Returns the
new filesystem and the resolved target path. -/
def move_folder (fs : FS) (source dest : String) (now : PyDate) : FS × String :=
  let fs1 := mkdirs fs dest now
  let base := basename source
  let target := resolveTarget fs1 dest base
  let srcDate := (fsMtime fs1 source).getD now
  ((target, srcDate) :: fsRemove fs1 source, target)

/-- The mutable state of one `run`: filesystem, progress events emitted so
far, moves performed so far (source, resolved target), and the report files
handed to `pd.read_excel` so far. -/
structure RunState where
  fs : FS
  events : List Nat
  moves : List (String × String)
  reads : List String
deriving DecidableEq

/-- Embeds the inner loop of lines 71-78 for one token `value`: scan the
folder map in order; on `value in folder_name`, read the folder's mtime
(raising — flag `true` — when the entry is stale) and move it into the
month bucket under the completed directory.  The flag reports an escaped
exception; the moves performed before it persist. -/
def processMatches (completedDir : String) (now : PyDate) (value : String) :
    List (String × String) → FS → List (String × String) →
      FS × List (String × String) × Bool
  | [], fs, mvs => (fs, mvs, false)
  | (fname, fpath) :: rest, fs, mvs =>
    if pyIn value fname then
      match fsMtime fs fpath with
      | none => (fs, mvs, true)
      | some d =>
        let r := move_folder fs fpath (pjoin completedDir (fmtDate d)) now
        processMatches completedDir now value rest r.1 (mvs ++ [(fpath, r.2)])
    else processMatches completedDir now value rest fs mvs

/-- Embeds the loop over `first_column_values` (line 70); an escaped
exception aborts the remaining tokens of this file only. -/
def processTokens (completedDir : String) (now : PyDate)
    (folderMap : List (String × String)) : List String → RunState → RunState
  | [], st => st
  | v :: vs, st =>
    let r := processMatches completedDir now v folderMap st.fs st.moves
    let st' : RunState := { st with fs := r.1, moves := r.2.1 }
    if r.2.2 then st' else processTokens completedDir now folderMap vs st'

/-- Embeds the `try` body of lines 65-81 for one report file: call
`read_excel` (a read failure skips the file), extract the tokens, process
them.  Either way the file was attempted, so it is recorded in `reads`. -/
def processFile (completedDir : String) (now : PyDate)
    (folderMap : List (String × String))
    (readFile : String → Except Unit (List Cell)) (filePath : String)
    (st : RunState) : RunState :=
  let st1 : RunState := { st with reads := st.reads ++ [filePath] }
  match readFile filePath with
  | .error _ => st1
  | .ok rows => processTokens completedDir now folderMap (extractTokens rows) st1

/-- Embeds line 56: the count of recognized report files in the listing. -/
def totalReportFiles (listing : List String) : Nat :=
  (listing.filter isReportFile).length

/-- Embeds `progress_step = 100 / total_files if total_files > 0 else 100`
combined with `int((i + 1) * progress_step)` (lines 58 and 83), with the
float arithmetic idealized as exact: for nonnegative exact values Python's
`int` truncation is the floor, and the floor of `(i+1) * (100/total)` is
the integer division `((i+1) * 100) / total` (see `progressEmit_eq_floor`). -/
def progressEmit (total i : Nat) : Nat :=
  if 0 < total then ((i + 1) * 100) / total else (i + 1) * 100

/-- One iteration of the `for i, file_name in enumerate(os.listdir(...))`
loop (lines 60-83): process the entry when it is a recognized report file,
then emit the progress value for index `i` in every case. -/
def runStep (xlsDir completedDir : String) (now : PyDate)
    (folderMap : List (String × String))
    (readFile : String → Except Unit (List Cell)) (total i : Nat)
    (name : String) (st : RunState) : RunState :=
  let st1 :=
    if isReportFile name then
      processFile completedDir now folderMap readFile (pjoin xlsDir name) st
    else st
  { st1 with events := st1.events ++ [progressEmit total i] }

/-- Embeds the `for i, file_name in enumerate(os.listdir(self.xls_dir))`
loop of lines 60-83: every directory entry gets a progress emission; only
entries recognized by `isReportFile` are processed. -/
def runLoop (xlsDir completedDir : String) (now : PyDate)
    (folderMap : List (String × String))
    (readFile : String → Except Unit (List Cell)) (total : Nat) :
    Nat → List String → RunState → RunState
  | _, [], st => st
  | i, name :: rest, st =>
    runLoop xlsDir completedDir now folderMap readFile total (i + 1) rest
      (runStep xlsDir completedDir now folderMap readFile total i name st)

/-- The environment of one `run`: the three directory paths, the outcome of
`os.listdir(self.parent_dir)` (entry name and `os.path.isdir` flag; `error`
models the call raising because the pool is missing or unreadable), the
outcome of `os.listdir(self.xls_dir)`, the `read_excel` results per path,
the initial filesystem, and the current date used for created directories. -/
structure RunInput where
  xlsDir : String
  parentDir : String
  completedDir : String
  poolEntries : Except Unit (List (String × Bool))
  xlsListing : List String
  readFile : String → Except Unit (List Cell)
  fs0 : FS
  now : PyDate

/-- The observable outcome of a completed `run`. -/
structure RunResult where
  events : List Nat
  finishedCount : Nat
  moves : List (String × String)
  reads : List String
  fs : FS
deriving DecidableEq

/-- Embeds the dict comprehension of lines 50-52 building `folder_map`. -/
def folderMapOf (parentDir : String) (pool : List (String × Bool)) :
    List (String × String) :=
  (pool.filter (fun e => e.2)).map (fun e => (e.1, pjoin parentDir e.1))

/-- Embeds `FolderProcessor.run` (lines 46-86).  A failure listing the
candidate pool propagates out of `run` before anything else happens; on the
normal path `self.finished.emit()` runs exactly once at line 86. -/
def run (inp : RunInput) : Except Unit RunResult :=
  match inp.poolEntries with
  | .error e => .error e
  | .ok pool =>
    let folderMap := folderMapOf inp.parentDir pool
    let total := totalReportFiles inp.xlsListing
    let final := runLoop inp.xlsDir inp.completedDir inp.now folderMap
      inp.readFile total 0 inp.xlsListing ⟨inp.fs0, [], [], []⟩
    .ok { events := final.events, finishedCount := 1, moves := final.moves,
          reads := final.reads, fs := final.fs }

/-- How many times the engine's explicit completion emit ran. -/
def finishedEmits : Except Unit RunResult → Nat
  | .error _ => 0
  | .ok r => r.finishedCount

/-- The progress events of a run (none when `run` raised). -/
def eventsOf : Except Unit RunResult → List Nat
  | .error _ => []
  | .ok r => r.events

/-- The moves performed by a run (none when `run` raised). -/
def movesOf : Except Unit RunResult → List (String × String)
  | .error _ => []
  | .ok r => r.moves

/-- The report files handed to `read_excel` (none when `run` raised). -/
def readsOf : Except Unit RunResult → List String
  | .error _ => []
  | .ok r => r.reads

/-- Follows the spec's words (§4.3): the matcher returns every
`(folder name, folder path)` pair whose name contains the token as a
substring.  Compared against the code's loop in `C6_matcher`. -/
def specMatches (value : String) (folderMap : List (String × String)) :
    List (String × String) :=
  folderMap.filter (fun e => pyIn value e.1)

/-! Section: Substring characterizations -/

theorem startsWithSeq_iff (n : List Char) : ∀ h : List Char,
    startsWithSeq n h = true ↔ ∃ t, h = n ++ t := by
  induction n with
  | nil => intro h; simp [startsWithSeq]
  | cons a as ih =>
    intro h
    cases h with
    | nil => simp [startsWithSeq]
    | cons b bs =>
      simp only [startsWithSeq, Bool.and_eq_true, beq_iff_eq, ih, List.cons_append]
      constructor
      · rintro ⟨rfl, t, rfl⟩
        exact ⟨t, rfl⟩
      · rintro ⟨t, ht⟩
        injection ht with h1 h2
        exact ⟨h1.symm, t, h2⟩

theorem hasSubSeq_iff (n : List Char) : ∀ h : List Char,
    hasSubSeq n h = true ↔ ∃ p t, h = p ++ n ++ t := by
  intro h
  induction h with
  | nil =>
    cases n with
    | nil => simp [hasSubSeq, List.isEmpty]
    | cons c cs => simp [hasSubSeq, List.isEmpty]
  | cons b bs ih =>
    simp only [hasSubSeq, Bool.or_eq_true, startsWithSeq_iff, ih]
    constructor
    · rintro (⟨t, ht⟩ | ⟨p, t, rfl⟩)
      · exact ⟨[], t, by simpa using ht⟩
      · exact ⟨b :: p, t, rfl⟩
    · rintro ⟨p, t, hpt⟩
      cases p with
      | nil => exact Or.inl ⟨t, by simpa using hpt⟩
      | cons x xs =>
        injection hpt with h1 h2
        exact Or.inr ⟨xs, t, h2⟩

theorem pyIn_iff (v s : String) :
    pyIn v s = true ↔ ∃ p t, s.data = p ++ v.data ++ t :=
  hasSubSeq_iff v.data s.data

theorem pyIn_refl (s : String) : pyIn s s = true :=
  (pyIn_iff s s).mpr ⟨[], [], by simp⟩

theorem pyIn_nil_left (s : String) : pyIn "" s = true :=
  (pyIn_iff "" s).mpr ⟨[], s.data, by simp⟩

theorem pyEndsWith_iff (s suf : String) :
    pyEndsWith s suf = true ↔ ∃ p, s.data = p ++ suf.data := by
  unfold pyEndsWith endsWithSeq
  rw [startsWithSeq_iff]
  constructor
  · rintro ⟨t, ht⟩
    refine ⟨t.reverse, ?_⟩
    have := congrArg List.reverse ht
    simpa using this
  · rintro ⟨p, hp⟩
    exact ⟨p.reverse, by simp [hp]⟩

/-! Section: Decimal representation: `Nat.repr` is injective

`suffixName` embeds the f-string of line 40, whose counter field is the
decimal representation of the counter.  The
collision loop's termination bound (`resolveTarget_not_exists`) needs the
checked candidate paths to be pairwise distinct, which reduces to the
injectivity of `Nat.repr`, proved here through a decimal decoder. -/

/-- The digit value of one of the characters produced by `Nat.digitChar`
on inputs below 10. -/
def digitVal (c : Char) : Nat := c.toNat - 48

/-- Decimal decoder, inverse to the digit-string encoder on its image. -/
def decodeDigits (l : List Char) : Nat :=
  l.foldl (fun a c => a * 10 + digitVal c) 0

theorem digitVal_digitChar : ∀ d, d < 10 → digitVal (Nat.digitChar d) = d := by decide

/-- Structural form of the decimal digit string of `n` (most significant
digit first), equal to `Nat.toDigits 10 n` (`toDigitsCore_eq_natDigits`). -/
def natDigits (n : Nat) : List Char :=
  if h : n < 10 then [Nat.digitChar n]
  else natDigits (n / 10) ++ [Nat.digitChar (n % 10)]
decreasing_by exact Nat.div_lt_self (by omega) (by omega)

theorem natDigits_lt {n : Nat} (h : n < 10) : natDigits n = [Nat.digitChar n] := by
  rw [natDigits]
  simp [h]

theorem natDigits_ge {n : Nat} (h : 10 ≤ n) :
    natDigits n = natDigits (n / 10) ++ [Nat.digitChar (n % 10)] := by
  rw [natDigits]
  simp [Nat.not_lt.mpr h]

theorem natDigits_ne_nil (n : Nat) : natDigits n ≠ [] := by
  by_cases h : n < 10
  · rw [natDigits_lt h]; simp
  · rw [natDigits_ge (Nat.le_of_not_lt h)]; simp

theorem toDigitsCore_append (f : Nat) : ∀ (n : Nat) (ds : List Char),
    Nat.toDigitsCore 10 f n ds = Nat.toDigitsCore 10 f n [] ++ ds := by
  induction f with
  | zero => intro n ds; simp [Nat.toDigitsCore]
  | succ f ih =>
    intro n ds
    simp only [Nat.toDigitsCore]
    by_cases h : n / 10 = 0
    · simp [h]
    · simp only [h, if_false]
      rw [ih (n / 10) [Nat.digitChar (n % 10)], ih (n / 10) (Nat.digitChar (n % 10) :: ds),
        List.append_assoc]
      rfl

theorem toDigitsCore_eq_natDigits : ∀ (f n : Nat), n < f →
    Nat.toDigitsCore 10 f n [] = natDigits n := by
  intro f
  induction f with
  | zero => intro n h; omega
  | succ f ih =>
    intro n h
    simp only [Nat.toDigitsCore]
    by_cases h10 : n < 10
    · have h0 : n / 10 = 0 := Nat.div_eq_of_lt h10
      simp [h0, natDigits_lt h10, Nat.mod_eq_of_lt h10]
    · have hd : ¬ n / 10 = 0 := by omega
      have hlt : n / 10 < f := by omega
      simp only [hd, if_false]
      rw [toDigitsCore_append, ih (n / 10) hlt, natDigits_ge (Nat.le_of_not_lt h10)]

theorem decodeDigits_append (l : List Char) (c : Char) :
    decodeDigits (l ++ [c]) = decodeDigits l * 10 + digitVal c := by
  simp [decodeDigits, List.foldl_append]

theorem decode_natDigits : ∀ n, decodeDigits (natDigits n) = n := by
  intro n
  induction n using Nat.strong_induction_on with
  | _ n ih =>
    by_cases h : n < 10
    · rw [natDigits_lt h]
      simp [decodeDigits, digitVal_digitChar n h]
    · rw [natDigits_ge (Nat.le_of_not_lt h), decodeDigits_append,
        ih (n / 10) (Nat.div_lt_self (by omega) (by omega)),
        digitVal_digitChar _ (Nat.mod_lt _ (by omega))]
      omega

theorem natRepr_eq (n : Nat) : Nat.repr n = (natDigits n).asString := by
  show (Nat.toDigits 10 n).asString = _
  rw [Nat.toDigits, toDigitsCore_eq_natDigits (n + 1) n (Nat.lt_succ_self n)]

theorem natRepr_inj {m n : Nat} (h : Nat.repr m = Nat.repr n) : m = n := by
  rw [natRepr_eq, natRepr_eq] at h
  have hd : natDigits m = natDigits n := congrArg String.data h
  have := congrArg decodeDigits hd
  simpa [decode_natDigits] using this

theorem natRepr_length_pos (n : Nat) : 0 < (Nat.repr n).length := by
  rw [natRepr_eq]
  show 0 < (natDigits n).length
  exact List.length_pos.mpr (natDigits_ne_nil n)

/-! Section: The candidate target names are pairwise distinct -/

theorem pjoin_inj_right {d x y : String} (h : pjoin d x = pjoin d y) : x = y := by
  unfold pjoin at h
  have h1 := congrArg String.data h
  simp only [String.data_append] at h1
  exact String.ext (List.append_cancel_left h1)

theorem pjoin_length (d x : String) : (pjoin d x).length = d.length + 1 + x.length := by
  unfold pjoin
  simp only [String.length_append]
  have h1 : "/".length = 1 := rfl
  omega

theorem suffixName_length (base : String) (n : Nat) :
    (suffixName base n).length = base.length + 2 + (Nat.repr n).length + 1 := by
  unfold suffixName
  simp only [String.length_append]
  have h2 : " (".length = 2 := rfl
  have h1 : ")".length = 1 := rfl
  omega

theorem suffixName_inj {base : String} {m n : Nat}
    (h : suffixName base m = suffixName base n) : m = n := by
  unfold suffixName at h
  have h1 := congrArg String.data h
  simp only [String.data_append] at h1
  have h2 := List.append_cancel_right h1
  have h3 := List.append_cancel_left h2
  exact natRepr_inj (String.ext h3)

/-- The sequence of candidate target paths the while loop checks:
`dest/base` first, then `dest/"base (k)"` for `k = 1, 2, ...`. -/
def cand (dest base : String) : Nat → String
  | 0 => pjoin dest base
  | k + 1 => pjoin dest (suffixName base (k + 1))

theorem cand_inj (dest base : String) : Function.Injective (cand dest base) := by
  intro j k h
  match j, k with
  | 0, 0 => rfl
  | 0, k + 1 =>
    exfalso
    have hl := congrArg String.length h
    rw [cand, cand, pjoin_length, pjoin_length, suffixName_length] at hl
    have := natRepr_length_pos (k + 1)
    omega
  | j + 1, 0 =>
    exfalso
    have hl := congrArg String.length h
    rw [cand, cand, pjoin_length, pjoin_length, suffixName_length] at hl
    have := natRepr_length_pos (j + 1)
    omega
  | j + 1, k + 1 =>
    have h1 := pjoin_inj_right (h : pjoin dest _ = pjoin dest _)
    have h2 := suffixName_inj h1
    omega

/-! Section: Filesystem lemmas -/

theorem fsExists_iff (fs : FS) (p : String) :
    fsExists fs p = true ↔ ∃ d, (p, d) ∈ fs := by
  simp only [fsExists, List.any_eq_true, beq_iff_eq]
  constructor
  · rintro ⟨⟨q, d⟩, hm, rfl⟩
    exact ⟨d, hm⟩
  · rintro ⟨d, hm⟩
    exact ⟨(p, d), hm, rfl⟩

theorem fsMtime_cons (q : String) (d : PyDate) (fs : FS) (p : String) :
    fsMtime ((q, d) :: fs) p = if q = p then some d else fsMtime fs p := by
  by_cases h : q = p
  · subst h
    simp [fsMtime, List.find?]
  · have hb : (q == p) = false := beq_eq_false_iff_ne.mpr h
    simp [fsMtime, List.find?, hb, h]

theorem fsMtime_some_mem {fs : FS} {p : String} {d : PyDate}
    (h : fsMtime fs p = some d) : (p, d) ∈ fs := by
  unfold fsMtime at h
  obtain ⟨e, he, hd⟩ := Option.map_eq_some'.mp h
  have h1 := List.find?_some he
  have h2 := List.mem_of_find?_eq_some he
  obtain ⟨q, d'⟩ := e
  simp only [beq_iff_eq] at h1
  cases h1
  cases hd
  exact h2

theorem fsExists_of_mtime {fs : FS} {p : String} {d : PyDate}
    (h : fsMtime fs p = some d) : fsExists fs p = true :=
  (fsExists_iff fs p).mpr ⟨d, fsMtime_some_mem h⟩

theorem fsMtime_fsRemove_ne (fs : FS) (s p : String) (h : p ≠ s) :
    fsMtime (fsRemove fs s) p = fsMtime fs p := by
  induction fs with
  | nil => rfl
  | cons e t ih =>
    obtain ⟨q, d⟩ := e
    by_cases hqs : q = s
    · have hqp : q ≠ p := by
        rw [hqs]
        exact fun he => h he.symm
      have hb : (q != s) = false := by simp [hqs]
      have hrw : fsRemove ((q, d) :: t) s = fsRemove t s := by
        simp [fsRemove, List.filter_cons, hb]
      rw [hrw, ih, fsMtime_cons, if_neg hqp]
    · have hb : (q != s) = true := by simp [hqs]
      have hrw : fsRemove ((q, d) :: t) s = (q, d) :: fsRemove t s := by
        simp [fsRemove, List.filter_cons, hb]
      rw [hrw, fsMtime_cons, fsMtime_cons]
      by_cases hqp : q = p
      · simp [hqp]
      · simp [hqp, ih]

theorem fsMtime_mkdirs {fs : FS} {p : String} {d : PyDate}
    (dest : String) (now : PyDate) (h : fsMtime fs p = some d) :
    fsMtime (mkdirs fs dest now) p = some d := by
  unfold mkdirs
  by_cases hd : fsExists fs dest = true
  · simp [hd, h]
  · have hne : dest ≠ p := by
      intro he
      exact hd (he ▸ fsExists_of_mtime h)
    simp only [hd, if_false, Bool.false_eq_true]
    rw [fsMtime_cons, if_neg hne]
    exact h

/-! Section: The while loop of `move_folder` reaches a free path -/

theorem resolveLoop_all_taken (fs : FS) (dest base : String) :
    ∀ (fuel counter : Nat) (cur : String),
      fsExists fs (resolveLoop fs dest base fuel counter cur) = true →
        fsExists fs cur = true ∧
          ∀ j, counter ≤ j → j < counter + fuel →
            fsExists fs (pjoin dest (suffixName base j)) = true := by
  intro fuel
  induction fuel with
  | zero =>
    intro counter cur h
    exact ⟨h, fun j h1 h2 => by omega⟩
  | succ fuel ih =>
    intro counter cur h
    rw [resolveLoop] at h
    by_cases hc : fsExists fs cur = true
    · rw [if_pos hc] at h
      obtain ⟨h1, h2⟩ := ih (counter + 1) _ h
      refine ⟨hc, fun j hj1 hj2 => ?_⟩
      rcases eq_or_lt_of_le hj1 with rfl | hlt
      · exact h1
      · exact h2 j (by omega) (by omega)
    · rw [if_neg hc] at h
      exact absurd h hc

theorem resolveTarget_not_exists (fs : FS) (dest base : String) :
    fsExists fs (resolveTarget fs dest base) = false := by
  by_contra hcon
  have h : fsExists fs (resolveTarget fs dest base) = true := by
    simpa using hcon
  unfold resolveTarget at h
  obtain ⟨hcur, hall⟩ := resolveLoop_all_taken fs dest base (fs.length + 1) 1 _ h
  have hsub : (List.range (fs.length + 2)).map (cand dest base) ⊆ fs.map Prod.fst := by
    intro x hx
    simp only [List.mem_map, List.mem_range] at hx
    obtain ⟨k, hk, rfl⟩ := hx
    have hex : fsExists fs (cand dest base k) = true := by
      match k, hk with
      | 0, _ => exact hcur
      | k + 1, hk => exact hall (k + 1) (by omega) (by omega)
    obtain ⟨d, hd⟩ := (fsExists_iff fs _).mp hex
    exact List.mem_map.mpr ⟨(cand dest base k, d), hd, rfl⟩
  have hnd : ((List.range (fs.length + 2)).map (cand dest base)).Nodup :=
    (List.nodup_range _).map (cand_inj dest base)
  have hlen := (hnd.subperm hsub).length_le
  simp only [List.length_map, List.length_range] at hlen
  omega

theorem resolveLoop_first_free (fs : FS) (dest base : String) :
    ∀ (fuel counter : Nat) (cur : String),
      fsExists fs (resolveLoop fs dest base fuel counter cur) = false →
        (resolveLoop fs dest base fuel counter cur = cur ∧ fsExists fs cur = false) ∨
        (∃ n, counter ≤ n ∧ n < counter + fuel ∧
          resolveLoop fs dest base fuel counter cur = pjoin dest (suffixName base n) ∧
          fsExists fs (pjoin dest (suffixName base n)) = false ∧
          fsExists fs cur = true ∧
          ∀ k, counter ≤ k → k < n →
            fsExists fs (pjoin dest (suffixName base k)) = true) := by
  intro fuel
  induction fuel with
  | zero =>
    intro counter cur h
    exact Or.inl ⟨rfl, h⟩
  | succ fuel ih =>
    intro counter cur h
    rw [resolveLoop] at h ⊢
    by_cases hc : fsExists fs cur = true
    · rw [if_pos hc] at h ⊢
      rcases ih (counter + 1) _ h with ⟨heq, hfree⟩ | ⟨n, h1, h2, h3, h4, h5, h6⟩
      · exact Or.inr ⟨counter, le_refl _, by omega, heq, hfree, hc,
          fun k hk1 hk2 => by omega⟩
      · refine Or.inr ⟨n, by omega, by omega, h3, h4, hc, fun k hk1 hk2 => ?_⟩
        rcases eq_or_lt_of_le hk1 with rfl | hklt
        · exact h5
        · exact h6 k (by omega) hk2
    · rw [if_neg hc] at h ⊢
      exact Or.inl ⟨rfl, h⟩

theorem resolveTarget_of_free {fs : FS} {dest base : String}
    (h : fsExists fs (pjoin dest base) = false) :
    resolveTarget fs dest base = pjoin dest base := by
  unfold resolveTarget
  rw [resolveLoop, if_neg (by simp [h])]

theorem resolveTarget_of_taken {fs : FS} {dest base : String}
    (h : fsExists fs (pjoin dest base) = true) :
    ∃ n, 1 ≤ n ∧ resolveTarget fs dest base = pjoin dest (suffixName base n) ∧
      fsExists fs (pjoin dest (suffixName base n)) = false ∧
      ∀ k, 1 ≤ k → k < n → fsExists fs (pjoin dest (suffixName base k)) = true := by
  have hfree := resolveTarget_not_exists fs dest base
  unfold resolveTarget at hfree ⊢
  rcases resolveLoop_first_free fs dest base (fs.length + 1) 1 (pjoin dest base) hfree with
    ⟨heq, hf⟩ | ⟨n, h1, _, h3, h4, _, h6⟩
  · rw [h] at hf
    exact absurd hf (by simp)
  · exact ⟨n, h1, h3, h4, h6⟩

/-! Section: `move_folder` never overwrites or merges -/

theorem move_folder_preserves (fs : FS) (source dest : String) (now : PyDate)
    (p : String) (d : PyDate) (hp : fsMtime fs p = some d) (hne : p ≠ source) :
    fsMtime (move_folder fs source dest now).1 p = some d := by
  unfold move_folder
  simp only
  have h1 : fsMtime (mkdirs fs dest now) p = some d := fsMtime_mkdirs dest now hp
  have htfree := resolveTarget_not_exists (mkdirs fs dest now) dest (basename source)
  have hpt : resolveTarget (mkdirs fs dest now) dest (basename source) ≠ p := by
    intro he
    rw [he] at htfree
    rw [fsExists_of_mtime h1] at htfree
    exact absurd htfree (by simp)
  rw [fsMtime_cons, if_neg hpt, fsMtime_fsRemove_ne _ _ _ hne]
  exact h1

theorem move_folder_target (fs : FS) (source dest : String) (now : PyDate) :
    (move_folder fs source dest now).2
      = resolveTarget (mkdirs fs dest now) dest (basename source) := rfl

/-! Section: Progress and read accounting of the main loop -/

theorem processTokens_events (c : String) (now : PyDate)
    (fm : List (String × String)) : ∀ (ts : List String) (st : RunState),
    (processTokens c now fm ts st).events = st.events := by
  intro ts
  induction ts with
  | nil => intro st; rfl
  | cons v vs ih =>
    intro st
    rw [processTokens]
    by_cases hflag : (processMatches c now v fm st.fs st.moves).2.2 = true
    · simp [hflag]
    · simp [hflag, ih]

theorem processTokens_reads (c : String) (now : PyDate)
    (fm : List (String × String)) : ∀ (ts : List String) (st : RunState),
    (processTokens c now fm ts st).reads = st.reads := by
  intro ts
  induction ts with
  | nil => intro st; rfl
  | cons v vs ih =>
    intro st
    rw [processTokens]
    by_cases hflag : (processMatches c now v fm st.fs st.moves).2.2 = true
    · simp [hflag]
    · simp [hflag, ih]

theorem processFile_events (c : String) (now : PyDate)
    (fm : List (String × String)) (rf : String → Except Unit (List Cell))
    (fp : String) (st : RunState) :
    (processFile c now fm rf fp st).events = st.events := by
  unfold processFile
  cases h : rf fp with
  | error e => rfl
  | ok rows => simp [processTokens_events]

theorem processFile_reads (c : String) (now : PyDate)
    (fm : List (String × String)) (rf : String → Except Unit (List Cell))
    (fp : String) (st : RunState) :
    (processFile c now fm rf fp st).reads = st.reads ++ [fp] := by
  unfold processFile
  cases h : rf fp with
  | error e => rfl
  | ok rows => simp [processTokens_reads]

theorem runStep_events (x c : String) (now : PyDate)
    (fm : List (String × String)) (rf : String → Except Unit (List Cell))
    (total i : Nat) (name : String) (st : RunState) :
    (runStep x c now fm rf total i name st).events
      = st.events ++ [progressEmit total i] := by
  unfold runStep
  by_cases h : isReportFile name = true
  · simp [h, processFile_events]
  · simp [h]

theorem runStep_reads (x c : String) (now : PyDate)
    (fm : List (String × String)) (rf : String → Except Unit (List Cell))
    (total i : Nat) (name : String) (st : RunState) :
    (runStep x c now fm rf total i name st).reads
      = st.reads ++ (if isReportFile name then [pjoin x name] else []) := by
  unfold runStep
  by_cases h : isReportFile name = true
  · simp [h, processFile_reads]
  · simp [h]

theorem range_map_shift {α : Type} (f : Nat → α) (n i : Nat) :
    (List.range (n + 1)).map (fun j => f (i + j))
      = f i :: (List.range n).map (fun j => f (i + 1 + j)) := by
  rw [List.range_succ_eq_map]
  rw [List.map_cons, List.map_map]
  rw [Nat.add_zero]
  congr 1
  apply List.map_congr_left
  intro j hj
  show f (i + (j + 1)) = f (i + 1 + j)
  congr 1
  omega

theorem runLoop_events (x c : String) (now : PyDate)
    (fm : List (String × String)) (rf : String → Except Unit (List Cell))
    (total : Nat) : ∀ (names : List String) (i : Nat) (st : RunState),
    (runLoop x c now fm rf total i names st).events
      = st.events ++ (List.range names.length).map (fun j => progressEmit total (i + j)) := by
  intro names
  induction names with
  | nil => intro i st; simp [runLoop]
  | cons name rest ih =>
    intro i st
    rw [runLoop, ih, runStep_events, List.length_cons,
      range_map_shift (progressEmit total) rest.length i]
    simp

theorem runLoop_reads (x c : String) (now : PyDate)
    (fm : List (String × String)) (rf : String → Except Unit (List Cell))
    (total : Nat) : ∀ (names : List String) (i : Nat) (st : RunState),
    (runLoop x c now fm rf total i names st).reads
      = st.reads ++ (names.filter isReportFile).map (fun n => pjoin x n) := by
  intro names
  induction names with
  | nil => intro i st; simp [runLoop]
  | cons name rest ih =>
    intro i st
    rw [runLoop, ih, runStep_reads]
    by_cases h : isReportFile name = true
    · simp [h, List.filter_cons]
    · simp [h, List.filter_cons]

/-! Section: Progress arithmetic -/

theorem progressEmit_mono (total : Nat) {i j : Nat} (h : i ≤ j) :
    progressEmit total i ≤ progressEmit total j := by
  unfold progressEmit
  by_cases ht : 0 < total
  · simp only [if_pos ht]
    exact Nat.div_le_div_right (Nat.mul_le_mul_right _ (by omega))
  · simp only [if_neg ht]
    exact Nat.mul_le_mul_right _ (by omega)

theorem progressEmit_le_100 {total i : Nat} (h : i < total) :
    progressEmit total i ≤ 100 := by
  unfold progressEmit
  rw [if_pos (by omega)]
  calc ((i + 1) * 100) / total ≤ (total * 100) / total :=
        Nat.div_le_div_right (Nat.mul_le_mul_right _ (by omega))
    _ = 100 := Nat.mul_div_cancel_left 100 (by omega)

theorem progressEmit_last {total : Nat} (h : 0 < total) :
    progressEmit total (total - 1) = 100 := by
  unfold progressEmit
  rw [if_pos h]
  have : (total - 1 + 1) = total := by omega
  rw [this]
  exact Nat.mul_div_cancel_left 100 h

/-- The integer-division form used in the embedding equals the floor of the
exact rational value `(i + 1) * (100 / total)` computed by the source. -/
theorem progressEmit_eq_floor (total i : Nat) (h : 0 < total) :
    (progressEmit total i : ℤ) = ⌊((i : ℚ) + 1) * (100 / (total : ℚ))⌋ := by
  unfold progressEmit
  rw [if_pos h]
  have heq : ((i : ℚ) + 1) * (100 / (total : ℚ))
      = ((((i + 1) * 100 : ℕ) : ℤ) : ℚ) / ((total : ℕ) : ℚ) := by
    push_cast
    ring
  rw [heq, Rat.floor_intCast_div_natCast]
  exact Int.ofNat_div _ _

/-! Section: Run-level accounting -/

theorem run_events {inp : RunInput} {pool : List (String × Bool)}
    (h : inp.poolEntries = .ok pool) :
    eventsOf (run inp) = (List.range inp.xlsListing.length).map
      (fun i => progressEmit (totalReportFiles inp.xlsListing) i) := by
  unfold run
  rw [h]
  simp only [eventsOf]
  rw [runLoop_events]
  simp

theorem run_reads {inp : RunInput} {pool : List (String × Bool)}
    (h : inp.poolEntries = .ok pool) :
    readsOf (run inp)
      = (inp.xlsListing.filter isReportFile).map (fun n => pjoin inp.xlsDir n) := by
  unfold run
  rw [h]
  simp only [readsOf]
  rw [runLoop_reads]
  simp

theorem run_finished_ok {inp : RunInput} {pool : List (String × Bool)}
    (h : inp.poolEntries = .ok pool) : finishedEmits (run inp) = 1 := by
  unfold run
  rw [h]
  rfl

theorem run_fatal {inp : RunInput} (h : inp.poolEntries = .error ()) :
    run inp = .error () := by
  unfold run
  rw [h]

/-! Section: Matching steps -/

theorem processMatches_cons_matched {c : String} {now : PyDate}
    {v fname fpath : String} {rest : List (String × String)} {fs : FS}
    {mvs : List (String × String)} {d : PyDate}
    (hm : pyIn v fname = true) (hd : fsMtime fs fpath = some d) :
    processMatches c now v ((fname, fpath) :: rest) fs mvs
      = processMatches c now v rest
          (move_folder fs fpath (pjoin c (fmtDate d)) now).1
          (mvs ++ [(fpath, (move_folder fs fpath (pjoin c (fmtDate d)) now).2)]) := by
  rw [processMatches, if_pos hm, hd]

theorem processMatches_cons_stale {c : String} {now : PyDate}
    {v fname fpath : String} {rest : List (String × String)} {fs : FS}
    {mvs : List (String × String)}
    (hm : pyIn v fname = true) (hd : fsMtime fs fpath = none) :
    processMatches c now v ((fname, fpath) :: rest) fs mvs = (fs, mvs, true) := by
  rw [processMatches, if_pos hm, hd]

theorem processMatches_cons_nomatch {c : String} {now : PyDate}
    {v fname fpath : String} {rest : List (String × String)} {fs : FS}
    {mvs : List (String × String)} (hm : pyIn v fname = false) :
    processMatches c now v ((fname, fpath) :: rest) fs mvs
      = processMatches c now v rest fs mvs := by
  rw [processMatches, if_neg (by simp [hm])]

/-- When no exception escapes the scan for one token, the sources of the
performed moves are exactly the paths of the substring-matched entries, in
folder-map order, appended to the moves already performed: every match is
processed, none is skipped, and nothing else is moved. -/
theorem processMatches_sources (c : String) (now : PyDate) (v : String) :
    ∀ (entries : List (String × String)) (fs : FS) (mvs : List (String × String)),
      (processMatches c now v entries fs mvs).2.2 = false →
        (processMatches c now v entries fs mvs).2.1.map Prod.fst
          = mvs.map Prod.fst ++ (specMatches v entries).map (fun e => e.2) := by
  intro entries
  induction entries with
  | nil =>
    intro fs mvs h
    simp [processMatches, specMatches]
  | cons e rest ih =>
    intro fs mvs h
    obtain ⟨fname, fpath⟩ := e
    by_cases hm : pyIn v fname = true
    · cases hd : fsMtime fs fpath with
      | none =>
        rw [processMatches_cons_stale hm hd] at h
        simp at h
      | some d =>
        rw [processMatches_cons_matched hm hd] at h ⊢
        rw [ih _ _ h]
        have hspec : specMatches v ((fname, fpath) :: rest)
            = (fname, fpath) :: specMatches v rest := by
          simp [specMatches, List.filter_cons, hm]
        rw [hspec]
        simp
    · have hm' : pyIn v fname = false := by
        cases hpy : pyIn v fname
        · rfl
        · exact absurd hpy hm
      rw [processMatches_cons_nomatch hm']
      rw [ih _ _ (by rw [processMatches_cons_nomatch hm'] at h; exact h)]
      have hspec : specMatches v ((fname, fpath) :: rest) = specMatches v rest := by
        simp [specMatches, List.filter_cons, hm']
      rw [hspec]

/-- A report file whose read fails contributes nothing but its read attempt:
filesystem and move list are untouched and the run continues. -/
theorem processFile_readError {c : String} {now : PyDate}
    {fm : List (String × String)} {rf : String → Except Unit (List Cell)}
    {fp : String} (st : RunState) (h : rf fp = .error ()) :
    processFile c now fm rf fp st = { st with reads := st.reads ++ [fp] } := by
  unfold processFile
  rw [h]

/-! Section: Concrete run inputs used by counterexamples and witnesses -/

def d0 : PyDate := ⟨2024, 3, 5⟩

def d1 : PyDate := ⟨2023, 11, 2⟩

/-- A report source holding one report file and one unrelated file. -/
def inpMixed : RunInput :=
  { xlsDir := "xls", parentDir := "pool", completedDir := "done",
    poolEntries := .ok [], xlsListing := ["a.xls", "b.txt"],
    readFile := fun _ => .error (), fs0 := [], now := d0 }

/-- A report source holding sixteen report files. -/
def inpSixteen : RunInput :=
  { xlsDir := "xls", parentDir := "pool", completedDir := "done",
    poolEntries := .ok [],
    xlsListing := ["f0.xls", "f1.xls", "f2.xls", "f3.xls", "f4.xls", "f5.xls",
      "f6.xls", "f7.xls", "f8.xls", "f9.xls", "f10.xls", "f11.xls", "f12.xls",
      "f13.xls", "f14.xls", "f15.xls"],
    readFile := fun _ => .error (), fs0 := [], now := d0 }

/-- An empty report source. -/
def inpEmptyListing : RunInput :=
  { xlsDir := "xls", parentDir := "pool", completedDir := "done",
    poolEntries := .ok [], xlsListing := [],
    readFile := fun _ => .error (), fs0 := [], now := d0 }

/-- A run whose candidate pool listing fails (pool missing or unreadable). -/
def inpFatal : RunInput :=
  { xlsDir := "xls", parentDir := "pool", completedDir := "done",
    poolEntries := .error (), xlsListing := ["a.xls"],
    readFile := fun _ => .error (), fs0 := [], now := d0 }

/-- The spec's end-to-end scenario: three candidate folders, one report
whose first column reads (after the header row) "Acme", "Beta LLC",
"Acme"; the second "Acme" hits the stale map entries of the two folders
already moved. -/
def inpScenario : RunInput :=
  { xlsDir := "xls", parentDir := "pool", completedDir := "done",
    poolEntries := .ok [("Acme Corp", true), ("Acme Corp Annex", true),
      ("Beta LLC", true), ("notes.txt", false)],
    xlsListing := ["r.xls"],
    readFile := fun p =>
      if p == "xls/r.xls" then
        .ok [Cell.str "hdr", Cell.str "Acme", Cell.str "Beta LLC", Cell.str "Acme"]
      else .error (),
    fs0 := [("pool/Acme Corp", d0), ("pool/Acme Corp Annex", d0),
      ("pool/Beta LLC", d1)],
    now := ⟨2025, 1, 1⟩ }

/-! Section: Claim C1 -/

/-- C1 is false as stated, on three counts.  With listing
`["a.xls", "b.txt"]` (one recognized report file) the code emits one event
per directory entry, not per report file, producing `[100, 200]` — two
events for one report file, with a value outside `[0, 100]`.  With sixteen
report files the third event is `int(3 * (100/16)) = 18`, not
`round(3 * 100 / 16) = 19`: the code truncates instead of rounding.  With
an empty report source nothing at all is emitted, not an immediate 100. -/
theorem C1_counterexample :
    eventsOf (run inpMixed) = [100, 200]
      ∧ totalReportFiles inpMixed.xlsListing = 1
      ∧ ¬ (200 : ℕ) ≤ 100
      ∧ (eventsOf (run inpSixteen))[2]? = some 18
      ∧ round (((2 : ℚ) + 1) * 100 / (totalReportFiles inpSixteen.xlsListing : ℚ)) = 19
      ∧ (18 : ℕ) ≠ 19
      ∧ eventsOf (run inpEmptyListing) = [] := by
  refine ⟨by decide, by decide, by decide, by decide, ?_, by decide, by decide⟩
  have h16 : totalReportFiles inpSixteen.xlsListing = 16 := by decide
  rw [h16, round_eq]
  have heq : ((2 : ℚ) + 1) * 100 / ((16 : ℕ) : ℚ) + 1 / 2
      = ((77 : ℤ) : ℚ) / ((4 : ℕ) : ℚ) := by
    norm_num
  rw [heq, Rat.floor_intCast_div_natCast]
  decide

/-- C1 (amended): one progress event is emitted per directory entry of the
Report Source (report file or not), in listing order; the value for index
`i` is the truncation `⌊(i+1) · (100 / total)⌋` (integer division), not a
rounding; the stream is monotonically non-decreasing; when every listing
entry is a recognized report file all values lie in `[0, 100]`; and for an
empty listing no event is emitted at all. -/
theorem C1_progress_amended (inp : RunInput) (pool : List (String × Bool))
    (h : inp.poolEntries = .ok pool) :
    eventsOf (run inp) = (List.range inp.xlsListing.length).map
        (fun i => progressEmit (totalReportFiles inp.xlsListing) i)
      ∧ (eventsOf (run inp)).Pairwise (· ≤ ·)
      ∧ ((∀ name ∈ inp.xlsListing, isReportFile name = true) →
          ∀ e ∈ eventsOf (run inp), e ≤ 100)
      ∧ (inp.xlsListing = [] → eventsOf (run inp) = [])
      ∧ (∀ i : Nat, 0 < totalReportFiles inp.xlsListing →
          (progressEmit (totalReportFiles inp.xlsListing) i : ℤ)
            = ⌊((i : ℚ) + 1) * (100 / (totalReportFiles inp.xlsListing : ℚ))⌋) := by
  have hev := run_events h
  refine ⟨hev, ?_, ?_, ?_, fun i ht => progressEmit_eq_floor _ i ht⟩
  · rw [hev]
    refine List.Pairwise.map _ ?_ (List.pairwise_lt_range _)
    intro a b hab
    exact progressEmit_mono _ (Nat.le_of_lt hab)
  · intro hall e he
    rw [hev] at he
    obtain ⟨i, hi, rfl⟩ := List.mem_map.mp he
    have htot : totalReportFiles inp.xlsListing = inp.xlsListing.length := by
      unfold totalReportFiles
      rw [List.filter_eq_self.mpr hall]
    refine progressEmit_le_100 ?_
    rw [htot]
    simpa using hi
  · intro hnil
    rw [hev, hnil]
    rfl

theorem C1_witness :
    eventsOf (run inpMixed) = (List.range 2).map (fun i => progressEmit 1 i)
      ∧ (eventsOf (run inpMixed)).Pairwise (· ≤ ·) := by
  obtain ⟨h1, h2, -, -, -⟩ := C1_progress_amended inpMixed [] rfl
  exact ⟨h1, h2⟩

/-! Section: Claim C2 -/

/-- C2 is false as stated: when the candidate pool listing raises,
`run` propagates the exception from line 50 and never reaches
`self.finished.emit()` at line 86, so the engine's explicit completion
signal is emitted zero times, not once. -/
theorem C2_counterexample :
    finishedEmits (run inpFatal) = 0 ∧ (0 : ℕ) ≠ 1 := by
  exact ⟨by decide, by decide⟩

/-- C2 (amended): the completion signal is emitted exactly once when the
run ends by exhausting all listing entries; when the run is ended by an
unrecoverable error building the CandidateMap, `run` raises before the
emit, so the engine code emits no completion signal (anything the caller
sees then can come only from the thread framework, outside this code). -/
theorem C2_completion_amended :
    (∀ (inp : RunInput) (pool : List (String × Bool)),
        inp.poolEntries = .ok pool → finishedEmits (run inp) = 1)
      ∧ (∀ inp : RunInput, inp.poolEntries = .error () →
          finishedEmits (run inp) = 0) := by
  constructor
  · intro inp pool h
    exact run_finished_ok h
  · intro inp h
    rw [run_fatal h]
    rfl

theorem C2_witness :
    finishedEmits (run inpMixed) = 1 ∧ finishedEmits (run inpFatal) = 0 :=
  ⟨C2_completion_amended.1 inpMixed [] rfl, C2_completion_amended.2 inpFatal rfl⟩

/-! Section: Claim C3 -/

/-- C3 is false as stated: for a file whose first column holds the two
non-empty rows "A" and "B", the claim predicts the two tokens
`["A", "B"]`, but `pd.read_excel`'s default `header=0` consumes the first
row as the column header, so the extractor produces only `["B"]`. -/
theorem C3_counterexample :
    extractTokens [Cell.str "A", Cell.str "B"] = ["B"]
      ∧ (dropna [Cell.str "A", Cell.str "B"]).map cellToStr = ["A", "B"]
      ∧ (["B"] : List String) ≠ ["A", "B"] := by
  exact ⟨by decide, by decide, by decide⟩

/-- C3 (amended): for every successfully read spreadsheet, the extractor
produces exactly one string token per non-empty row of the first column
excluding the first row (which the reader consumes as the column header),
in row order, with values coerced to string form and empty/missing cells
dropped. -/
theorem C3_tokens_amended :
    (∀ rows : List Cell, extractTokens rows
        = ((rows.drop 1).filter (fun c => !c.isNA)).map cellToStr)
      ∧ (∀ rows : List Cell, (extractTokens rows).length
          = ((rows.drop 1).filter (fun c => !c.isNA)).length)
      ∧ extractTokens [Cell.str "H", Cell.na, Cell.str "X", Cell.na, Cell.str "Y"]
          = ["X", "Y"] := by
  refine ⟨fun rows => rfl, fun rows => ?_, by decide⟩
  show (List.map cellToStr _).length = _
  rw [List.length_map]
  rfl

/-! Section: Claim C4 -/

/-- C4: when the Candidate Pool path does not exist or is unreadable, the
whole run fails during map construction: no report file is read, no move
is performed, no progress is emitted, and no completion is emitted by the
engine — the error propagates before line 56 is ever reached. -/
theorem C4_fail_fast (inp : RunInput) (h : inp.poolEntries = .error ()) :
    run inp = .error () ∧ readsOf (run inp) = [] ∧ movesOf (run inp) = []
      ∧ eventsOf (run inp) = [] ∧ finishedEmits (run inp) = 0 := by
  have hf := run_fatal h
  rw [hf]
  exact ⟨rfl, rfl, rfl, rfl, rfl⟩

theorem C4_witness :
    run inpFatal = .error () ∧ readsOf (run inpFatal) = [] := by
  obtain ⟨h1, h2, -, -, -⟩ := C4_fail_fast inpFatal rfl
  exact ⟨h1, h2⟩

/-! Section: Claim C5 -/

/-- C5: the collision-safe mover resolves `destination/basename(source)`
when that path is free; otherwise it tries `"<name> (1)"`, `"<name> (2)"`,
... in order and takes the first unused one; the resolved target is never
an existing entry, and every pre-existing entry other than the source
survives the move unchanged — nothing is overwritten or merged. -/
theorem C5_collision_safe_mover :
    (∀ (fs : FS) (dest base : String),
        fsExists fs (resolveTarget fs dest base) = false)
      ∧ (∀ (fs : FS) (dest base : String),
          fsExists fs (pjoin dest base) = false →
            resolveTarget fs dest base = pjoin dest base)
      ∧ (∀ (fs : FS) (dest base : String),
          fsExists fs (pjoin dest base) = true →
            ∃ n, 1 ≤ n
              ∧ resolveTarget fs dest base = pjoin dest (suffixName base n)
              ∧ fsExists fs (pjoin dest (suffixName base n)) = false
              ∧ ∀ k, 1 ≤ k → k < n →
                  fsExists fs (pjoin dest (suffixName base k)) = true)
      ∧ (∀ (fs : FS) (source dest : String) (now : PyDate) (p : String) (d : PyDate),
          fsMtime fs p = some d → p ≠ source →
            fsMtime (move_folder fs source dest now).1 p = some d)
      ∧ (∀ (fs : FS) (source dest : String) (now : PyDate),
          (move_folder fs source dest now).2
            = resolveTarget (mkdirs fs dest now) dest (basename source)) := by
  refine ⟨resolveTarget_not_exists, ?_, ?_, move_folder_preserves, move_folder_target⟩
  · intro fs dest base h
    exact resolveTarget_of_free h
  · intro fs dest base h
    exact resolveTarget_of_taken h

/-- The collision scenario of the claim, concretely: with `arc/X` and
`arc/X (1)` both present, the mover resolves `arc/X (2)`, and an unrelated
entry survives a move untouched. -/
theorem C5_witness :
    resolveTarget [("arc/X", d0), ("arc/X (1)", d0)] "arc" "X" = "arc/X (2)"
      ∧ fsExists [("arc/X", d0), ("arc/X (1)", d0)]
          (resolveTarget [("arc/X", d0), ("arc/X (1)", d0)] "arc" "X") = false
      ∧ fsMtime (move_folder [("pool/X", d0), ("pool/Y", d1)] "pool/X" "arc" d1).1
          "pool/Y" = some d1
      ∧ resolveTarget [] "arc" "X" = pjoin "arc" "X" := by
  refine ⟨by decide, C5_collision_safe_mover.1 _ "arc" "X",
    C5_collision_safe_mover.2.2.2.1 [("pool/X", d0), ("pool/Y", d1)] "pool/X"
      "arc" d1 "pool/Y" d1 (by decide) (by decide),
    C5_collision_safe_mover.2.1 [] "arc" "X" (by decide)⟩

/-! Section: Claim C6 -/

/-- C6: the matcher selects exactly the folder-map entries whose folder
name contains the token as a contiguous substring (so equality matches and
matching is case-sensitive, there being no normalization anywhere in the
test), and when no exception interrupts the scan every matching entry is
processed — the performed move sources are exactly the matched paths in
map order, with no early exit. -/
theorem C6_matcher :
    (∀ (v : String) (m : List (String × String)) (e : String × String),
        e ∈ specMatches v m ↔ e ∈ m ∧ pyIn v e.1 = true)
      ∧ (∀ v s : String, pyIn v s = true ↔ ∃ p t, s.data = p ++ v.data ++ t)
      ∧ (∀ s : String, pyIn s s = true)
      ∧ (∀ (c : String) (now : PyDate) (v : String)
            (entries : List (String × String)) (fs : FS)
            (mvs : List (String × String)),
          (processMatches c now v entries fs mvs).2.2 = false →
            (processMatches c now v entries fs mvs).2.1.map Prod.fst
              = mvs.map Prod.fst ++ (specMatches v entries).map (fun e => e.2)) := by
  refine ⟨?_, pyIn_iff, pyIn_refl, processMatches_sources⟩
  intro v m e
  simp [specMatches, List.mem_filter]

def entC6 : List (String × String) :=
  [("Acme Corp", "pool/Acme Corp"), ("Beta LLC", "pool/Beta LLC"),
   ("Acme Corp Annex", "pool/Acme Corp Annex")]

def fsC6 : FS :=
  [("pool/Acme Corp", d0), ("pool/Beta LLC", d1), ("pool/Acme Corp Annex", d0)]

theorem C6_witness :
    (processMatches "done" d0 "Acme" entC6 fsC6 []).2.1.map Prod.fst
      = ["pool/Acme Corp", "pool/Acme Corp Annex"] := by
  rw [C6_matcher.2.2.2 "done" d0 "Acme" entC6 fsC6 [] (by decide)]
  decide

/-! Section: Claim C7 -/

/-- C7: errors are isolated.  Whenever the CandidateMap builds, the run
finishes normally no matter what the per-file reads or per-move attempts
do; a file whose read fails contributes nothing apart from its read
attempt (no matches, no moves); and a move attempt on a stale map entry
(mtime raising because the folder was already relocated) abandons that
file's remaining work without crashing the run. -/
theorem C7_error_isolation :
    (∀ (inp : RunInput) (pool : List (String × Bool)),
        inp.poolEntries = .ok pool →
          ∃ r : RunResult, run inp = .ok r ∧ r.finishedCount = 1)
      ∧ (∀ (c : String) (now : PyDate) (fm : List (String × String))
            (rf : String → Except Unit (List Cell)) (fp : String) (st : RunState),
          rf fp = .error () →
            processFile c now fm rf fp st = { st with reads := st.reads ++ [fp] })
      ∧ (∀ (c : String) (now : PyDate) (v fname fpath : String)
            (rest : List (String × String)) (fs : FS)
            (mvs : List (String × String)),
          pyIn v fname = true → fsMtime fs fpath = none →
            processMatches c now v ((fname, fpath) :: rest) fs mvs
              = (fs, mvs, true)) := by
  refine ⟨?_, ?_, ?_⟩
  · intro inp pool h
    unfold run
    rw [h]
    exact ⟨_, rfl, rfl⟩
  · intro c now fm rf fp st h
    exact processFile_readError st h
  · intro c now v fname fpath rest fs mvs hm hd
    exact processMatches_cons_stale hm hd

theorem C7_witness :
    finishedEmits (run inpScenario) = 1
      ∧ movesOf (run inpScenario)
          = [("pool/Acme Corp", "done/03 March 2024/Acme Corp"),
             ("pool/Acme Corp Annex", "done/03 March 2024/Acme Corp Annex"),
             ("pool/Beta LLC", "done/11 November 2023/Beta LLC")]
      ∧ processFile "done" d0 [] (fun _ => .error ()) "xls/a.xls" ⟨[], [], [], []⟩
          = ⟨[], [], [], ["xls/a.xls"]⟩
      ∧ processMatches "done" d0 "Acme" [("Acme Corp", "pool/Acme Corp")] [] []
          = ([], [], true) := by
  refine ⟨?_, by decide,
    C7_error_isolation.2.1 "done" d0 [] (fun _ => .error ()) "xls/a.xls"
      ⟨[], [], [], []⟩ rfl,
    C7_error_isolation.2.2 "done" d0 "Acme" "Acme Corp" "pool/Acme Corp" [] [] []
      (by decide) (by decide)⟩
  obtain ⟨r, hr, hf⟩ := C7_error_isolation.1 inpScenario _ rfl
  rw [hr]
  exact hf

/-! Section: Claim C8 -/

/-- C8: a matched folder is moved into the Archive Root joined with the
bucket `"<zero-padded month> <full month name> <4-digit year>"` formatted
from the folder's last-modified date; in the collision-free case the final
target is `archive-root/<bucket>/<folder-name>`, and a folder last
modified on 2024-03-05 lands in `"03 March 2024"`. -/
theorem C8_destination_bucket :
    (∀ (c : String) (now : PyDate) (v fname fpath : String)
        (rest : List (String × String)) (fs : FS)
        (mvs : List (String × String)) (d : PyDate),
        pyIn v fname = true → fsMtime fs fpath = some d →
          processMatches c now v ((fname, fpath) :: rest) fs mvs
            = processMatches c now v rest
                (move_folder fs fpath (pjoin c (fmtDate d)) now).1
                (mvs ++ [(fpath, (move_folder fs fpath (pjoin c (fmtDate d)) now).2)]))
      ∧ fmtDate ⟨2024, 3, 5⟩ = "03 March 2024"
      ∧ (∀ (fs : FS) (source c : String) (now : PyDate) (d : PyDate),
          fsExists (mkdirs fs (pjoin c (fmtDate d)) now)
              (pjoin (pjoin c (fmtDate d)) (basename source)) = false →
            (move_folder fs source (pjoin c (fmtDate d)) now).2
              = pjoin (pjoin c (fmtDate d)) (basename source))
      ∧ (move_folder [("pool/X", ⟨2024, 3, 5⟩)] "pool/X"
            (pjoin "arc" (fmtDate ⟨2024, 3, 5⟩)) d1).2 = "arc/03 March 2024/X" := by
  refine ⟨?_, by decide, ?_, by decide⟩
  · intro c now v fname fpath rest fs mvs d hm hd
    exact processMatches_cons_matched hm hd
  · intro fs source c now d h
    rw [move_folder_target]
    exact resolveTarget_of_free h

theorem C8_witness :
    (processMatches "done" d0 "X" [("X", "pool/X")] [("pool/X", d0)] []).2.1
        = [("pool/X", "done/03 March 2024/X")]
      ∧ (move_folder [("pool/X", d0)] "pool/X" (pjoin "done" (fmtDate d0)) d1).2
          = pjoin (pjoin "done" (fmtDate d0)) (basename "pool/X") := by
  refine ⟨?_, C8_destination_bucket.2.2.1 [("pool/X", d0)] "pool/X" "done" d1 d0
    (by decide)⟩
  rw [C8_destination_bucket.1 "done" d0 "X" "X" "pool/X" [] [("pool/X", d0)] []
    d0 (by decide) (by decide)]
  decide

/-! Section: Claim C9 -/

/-- C9: the empty token passes the substring test against every folder
name, so a blank token extracted from a report selects the entire
CandidateMap — every candidate folder would be matched and a relocation
attempted for each. -/
theorem C9_empty_token :
    (∀ s : String, pyIn "" s = true)
      ∧ (∀ m : List (String × String), specMatches "" m = m) := by
  refine ⟨pyIn_nil_left, fun m => ?_⟩
  unfold specMatches
  rw [List.filter_eq_self]
  intro e he
  exact pyIn_nil_left e.1

/-! Section: Claim C10 -/

/-- C10: report-file recognition is a case-sensitive suffix test — a
listing entry is counted toward the total and processed exactly when its
name ends with the literal lowercase `".xls"` or `".xlsx"`; uppercase or
mixed-case variants are ignored, and the files handed to the reader are
exactly the recognized ones. -/
theorem C10_extension_case :
    isReportFile "report.xls" = true
      ∧ isReportFile "report.xlsx" = true
      ∧ isReportFile "report.XLS" = false
      ∧ isReportFile "report.XLSX" = false
      ∧ isReportFile "report.Xlsx" = false
      ∧ (∀ name : String, isReportFile name = true
          ↔ ((∃ p, name.data = p ++ (".xls" : String).data)
              ∨ ∃ p, name.data = p ++ (".xlsx" : String).data))
      ∧ (∀ l : List String, totalReportFiles l = (l.filter isReportFile).length)
      ∧ (∀ (inp : RunInput) (pool : List (String × Bool)),
          inp.poolEntries = .ok pool →
            readsOf (run inp)
              = (inp.xlsListing.filter isReportFile).map
                  (fun n => pjoin inp.xlsDir n)) := by
  refine ⟨by decide, by decide, by decide, by decide, by decide, ?_,
    fun l => rfl, fun inp pool h => run_reads h⟩
  intro name
  rw [isReportFile, Bool.or_eq_true, pyEndsWith_iff, pyEndsWith_iff]

theorem C10_witness :
    readsOf (run inpMixed) = ["xls/a.xls"] := by
  rw [C10_extension_case.2.2.2.2.2.2.2 inpMixed [] rfl]
  decide

end Cleaner
